import Mathlib

/-!
Verification of `trie/utils/db.py` (`ScratchDB`): a write-buffering overlay
cache in front of a key-value backing store, with a `batch_commit` context
manager that flushes the overlay into the store on normal exit and always
clears the overlay.

Embedding choices:
* Python dicts are modelled as association lists with unique keys, in
  insertion order.  `dictInsert` updates an existing key in place and
  appends a fresh key at the end; `dictPop` removes the key's entry;
  `dictLookup` finds the entry for a key.  These are exactly the dict
  operations the Python code uses (`d[k] = v`, `d.pop(k, None)`, `k in d`,
  `d.get(k, None)`, iteration over `d.items()`).
* Keys and non-`None` values are `Nat`; a Python value-or-`None` is
  `Option Val` (`none` is the `None` tombstone sentinel).
* The backing store is abstract: a state type `σ` with read operations
  `sget`/`scontains` and write operations `sset`/`spop` that may raise
  (`Except Err`), matching the store capability contract.  `plainOps` is
  the non-failing plain-dict instance.
* `batch_commit` is modelled by `batchCommit`, taking the overlay state at
  scope exit together with the body's outcome (`none` = completed
  normally, `some e` = raised `e`); it returns the propagated error (if
  any) and the final `ScratchDB` state, mirroring the
  `try/except/else/finally` structure of the Python code.
-/

abbrev Key := Nat
abbrev Val := Nat
abbrev Err := Nat

/-- `d.get(k)` on a Python dict: the value stored at `k`, if any. -/
def dictLookup {α : Type} : List (Key × α) → Key → Option α
  | [], _ => none
  | (k', v') :: rest, k => if k' = k then some v' else dictLookup rest k

/-- `d[k] = v` on a Python dict: replace the entry for `k` in place if one
exists, otherwise append `(k, v)` at the end. -/
def dictInsert {α : Type} : List (Key × α) → Key → α → List (Key × α)
  | [], k, v => [(k, v)]
  | (k', v') :: rest, k, v =>
    if k' = k then (k, v) :: rest else (k', v') :: dictInsert rest k v

/-- `d.pop(k, None)` on a Python dict: remove the entry for `k`, if any. -/
def dictPop {α : Type} : List (Key × α) → Key → List (Key × α)
  | [], _ => []
  | (k', v') :: rest, k => if k' = k then rest else (k', v') :: dictPop rest k

/-- A plain in-memory backing store: a dict from keys to (non-`None`)
values. -/
abbrev PlainStore := List (Key × Val)

/-- The backing-store capability contract consumed by the overlay cache:
lookup and membership are pure; `set` and `delete` may raise. -/
structure StoreOps (σ : Type) where
  sget : σ → Key → Option Val
  scontains : σ → Key → Bool
  sset : σ → Key → Val → Except Err σ
  spop : σ → Key → Except Err σ

/-- The non-failing plain-dict backing store. -/
def plainOps : StoreOps PlainStore where
  sget := dictLookup
  scontains := fun s k => (dictLookup s k).isSome
  sset := fun s k v => .ok (dictInsert s k v)
  spop := fun s k => .ok (dictPop s k)

/-- The `ScratchDB` object: a backing store of state type `σ` plus the
pending-change map `cache` (a dict from keys to value-or-tombstone). -/
structure ScratchDB (σ : Type) where
  wrapped_db : σ
  cache : List (Key × Option Val)
  deriving DecidableEq

/-- `ScratchDB.__getitem__`: a pending entry (even a `None` tombstone) is
returned as stored; otherwise `wrapped_db.get(key, None)`. -/
def getItem {σ : Type} (ops : StoreOps σ) (db : ScratchDB σ) (k : Key) : Option Val :=
  match dictLookup db.cache k with
  | some v => v
  | none => ops.sget db.wrapped_db k

/-- `ScratchDB.__setitem__`: `self.cache[key] = value` (no check on
`value`; a `None` value is stored as given). -/
def setItem {σ : Type} (db : ScratchDB σ) (k : Key) (v : Option Val) : ScratchDB σ :=
  { db with cache := dictInsert db.cache k v }

/-- `ScratchDB.__delitem__`: `self.cache[key] = None`. -/
def delItem {σ : Type} (db : ScratchDB σ) (k : Key) : ScratchDB σ :=
  { db with cache := dictInsert db.cache k none }

/-- `ScratchDB.__contains__`: a pending entry answers `value is not None`;
otherwise `key in self.wrapped_db`. -/
def containsItem {σ : Type} (ops : StoreOps σ) (db : ScratchDB σ) (k : Key) : Bool :=
  match dictLookup db.cache k with
  | some v => v.isSome
  | none => ops.scontains db.wrapped_db k

/-- One iteration of the commit loop body for the pending entry
`(k, ent)`: `if value is not None: wrapped_db[key] = value
elif do_deletes: wrapped_db.pop(key, None)`. -/
def applyEntry {σ : Type} (ops : StoreOps σ) (doDeletes : Bool) (s : σ)
    (k : Key) (ent : Option Val) : Except Err σ :=
  match ent with
  | some v => ops.sset s k v
  | none => if doDeletes then ops.spop s k else .ok s

/-- The commit loop `for key, value in self.cache.items(): ...`: apply the
pending entries to the store in order, stopping at the first store error.
Returns the error (if any) together with the store state reached. -/
def flushCache {σ : Type} (ops : StoreOps σ) (doDeletes : Bool) :
    List (Key × Option Val) → σ → Option Err × σ
  | [], s => (none, s)
  | (k, ent) :: rest, s =>
    match applyEntry ops doDeletes s k ent with
    | .ok s' => flushCache ops doDeletes rest s'
    | .error e => (some e, s)

/-- `ScratchDB.batch_commit` at scope exit.  `bodyErr` is the body's
outcome (`some e` when the body raised `e`) and `db` the `ScratchDB` state
at that moment.  The `except` branch re-raises the same error; the `else`
branch runs the commit loop; the `finally` branch replaces the cache with
`{}` on every path.  Result: the error propagated to the caller (if any)
and the final `ScratchDB` state. -/
def batchCommit {σ : Type} (ops : StoreOps σ) (doDeletes : Bool)
    (bodyErr : Option Err) (db : ScratchDB σ) : Option Err × ScratchDB σ :=
  match bodyErr with
  | some e => (some e, { wrapped_db := db.wrapped_db, cache := [] })
  | none =>
    let r := flushCache ops doDeletes db.cache db.wrapped_db
    (r.1, { wrapped_db := r.2, cache := [] })

/-- Well-formedness of the pending-change map: as a Python dict, its keys
are pairwise distinct. -/
def cacheWF {σ : Type} (db : ScratchDB σ) : Prop :=
  (db.cache.map Prod.fst).Nodup

instance {σ : Type} (db : ScratchDB σ) : Decidable (cacheWF db) := by
  unfold cacheWF; infer_instance

/-- A scope body interacting with the cache only through the dictionary
API: a sequence of `set`/`delete` calls (reads have no effect on state). -/
inductive CacheOp where
  | set (k : Key) (v : Val)
  | del (k : Key)
  deriving DecidableEq

/-- Run a scope body's cache operations in order. -/
def runOps {σ : Type} : List CacheOp → ScratchDB σ → ScratchDB σ
  | [], db => db
  | .set k v :: rest, db => runOps rest (setItem db k (some v))
  | .del k :: rest, db => runOps rest (delItem db k)

/-! ### Dictionary lemmas -/

theorem dictLookup_dictInsert_self {α : Type} (d : List (Key × α)) (k : Key) (v : α) :
    dictLookup (dictInsert d k v) k = some v := by
  induction d with
  | nil => simp [dictInsert, dictLookup]
  | cons p rest ih =>
    obtain ⟨k', v'⟩ := p
    by_cases h : k' = k <;> simp [dictInsert, dictLookup, h, ih]

theorem dictLookup_dictInsert_ne {α : Type} (d : List (Key × α)) (k k' : Key) (v : α)
    (h : k' ≠ k) : dictLookup (dictInsert d k v) k' = dictLookup d k' := by
  induction d with
  | nil => simp [dictInsert, dictLookup, Ne.symm h]
  | cons p rest ih =>
    obtain ⟨k₀, v₀⟩ := p
    by_cases h₀ : k₀ = k
    · subst h₀
      simp [dictInsert, dictLookup, Ne.symm h]
    · simp only [dictInsert, if_neg h₀, dictLookup]
      by_cases h₁ : k₀ = k' <;> simp [h₁, ih]

theorem dictLookup_eq_none_of_not_mem {α : Type} (d : List (Key × α)) (k : Key)
    (h : k ∉ d.map Prod.fst) : dictLookup d k = none := by
  induction d with
  | nil => rfl
  | cons p rest ih =>
    obtain ⟨k₀, v₀⟩ := p
    simp only [List.map_cons, List.mem_cons] at h
    push_neg at h
    simp [dictLookup, Ne.symm h.1, ih h.2]

theorem dictLookup_dictPop_self {α : Type} (d : List (Key × α)) (k : Key)
    (h : (d.map Prod.fst).Nodup) : dictLookup (dictPop d k) k = none := by
  induction d with
  | nil => rfl
  | cons p rest ih =>
    obtain ⟨k₀, v₀⟩ := p
    simp only [List.map_cons, List.nodup_cons] at h
    by_cases h₀ : k₀ = k
    · subst h₀
      simp only [dictPop, if_pos rfl]
      exact dictLookup_eq_none_of_not_mem rest k₀ h.1
    · simp [dictPop, dictLookup, h₀, ih h.2]

theorem dictLookup_dictPop_ne {α : Type} (d : List (Key × α)) (k k' : Key)
    (h : k' ≠ k) : dictLookup (dictPop d k) k' = dictLookup d k' := by
  induction d with
  | nil => simp [dictPop]
  | cons p rest ih =>
    obtain ⟨k₀, v₀⟩ := p
    by_cases h₀ : k₀ = k
    · subst h₀
      simp [dictPop, dictLookup, Ne.symm h]
    · simp [dictPop, dictLookup, h₀, ih]

theorem dictInsert_keys {α : Type} (d : List (Key × α)) (k : Key) (v : α) :
    (dictInsert d k v).map Prod.fst =
      if k ∈ d.map Prod.fst then d.map Prod.fst else d.map Prod.fst ++ [k] := by
  induction d with
  | nil => simp [dictInsert]
  | cons p rest ih =>
    obtain ⟨k₀, v₀⟩ := p
    by_cases h₀ : k₀ = k
    · subst h₀
      simp [dictInsert]
    · simp only [dictInsert, if_neg h₀, List.map_cons, ih, List.mem_cons]
      by_cases hm : k ∈ rest.map Prod.fst <;>
        simp [hm, Ne.symm h₀]

theorem dictInsert_keys_nodup {α : Type} (d : List (Key × α)) (k : Key) (v : α)
    (h : (d.map Prod.fst).Nodup) : ((dictInsert d k v).map Prod.fst).Nodup := by
  rw [dictInsert_keys]
  by_cases hm : k ∈ d.map Prod.fst
  · simpa [hm] using h
  · simp only [if_neg hm]
    refine List.Nodup.append h (List.nodup_singleton k) ?_
    intro x hx hx'
    simp only [List.mem_singleton] at hx'
    exact hm (hx' ▸ hx)

theorem dictPop_keys_sublist {α : Type} (d : List (Key × α)) (k : Key) :
    ((dictPop d k).map Prod.fst).Sublist (d.map Prod.fst) := by
  induction d with
  | nil => simp [dictPop]
  | cons p rest ih =>
    obtain ⟨k₀, v₀⟩ := p
    by_cases h₀ : k₀ = k
    · simp only [dictPop, if_pos h₀, List.map_cons]
      exact (List.Sublist.refl _).cons k₀
    · simp only [dictPop, if_neg h₀, List.map_cons]
      exact ih.cons₂ k₀

theorem dictPop_keys_nodup {α : Type} (d : List (Key × α)) (k : Key)
    (h : (d.map Prod.fst).Nodup) : ((dictPop d k).map Prod.fst).Nodup :=
  h.sublist (dictPop_keys_sublist d k)

/-! ### Unfolding lemmas for the store and the commit loop -/

theorem plainOps_sget (s : PlainStore) (k : Key) :
    plainOps.sget s k = dictLookup s k := rfl

theorem plainOps_scontains (s : PlainStore) (k : Key) :
    plainOps.scontains s k = (dictLookup s k).isSome := rfl

theorem plainOps_sset (s : PlainStore) (k : Key) (v : Val) :
    plainOps.sset s k v = .ok (dictInsert s k v) := rfl

theorem plainOps_spop (s : PlainStore) (k : Key) :
    plainOps.spop s k = .ok (dictPop s k) := rfl

theorem flushCache_cons {σ : Type} (ops : StoreOps σ) (dd : Bool) (k : Key)
    (ent : Option Val) (rest : List (Key × Option Val)) (s : σ) :
    flushCache ops dd ((k, ent) :: rest) s =
      match applyEntry ops dd s k ent with
      | .ok s' => flushCache ops dd rest s'
      | .error e => (some e, s) := rfl

theorem flushCache_cons_ok {σ : Type} (ops : StoreOps σ) (dd : Bool) (k : Key)
    (ent : Option Val) (rest : List (Key × Option Val)) (s s' : σ)
    (h : applyEntry ops dd s k ent = .ok s') :
    flushCache ops dd ((k, ent) :: rest) s = flushCache ops dd rest s' := by
  rw [flushCache_cons, h]

theorem flushCache_cons_error {σ : Type} (ops : StoreOps σ) (dd : Bool) (k : Key)
    (ent : Option Val) (rest : List (Key × Option Val)) (s : σ) (e : Err)
    (h : applyEntry ops dd s k ent = .error e) :
    flushCache ops dd ((k, ent) :: rest) s = (some e, s) := by
  rw [flushCache_cons, h]

/-- A scope body touches only the overlay: running any sequence of
`set`/`delete` calls leaves the backing store untouched. -/
theorem runOps_wrapped_db {σ : Type} (body : List CacheOp) (db : ScratchDB σ) :
    (runOps body db).wrapped_db = db.wrapped_db := by
  induction body generalizing db with
  | nil => rfl
  | cons op rest ih => cases op <;> simp [runOps, setItem, delItem, ih]

/-- If the commit loop consumes `c₁` without a store error, reaching store
state `s₁`, then running it on `c₁ ++ c₂` continues on `c₂` from `s₁`. -/
theorem flushCache_append {σ : Type} (ops : StoreOps σ) (dd : Bool)
    (c₁ c₂ : List (Key × Option Val)) (s s₁ : σ)
    (h : flushCache ops dd c₁ s = (none, s₁)) :
    flushCache ops dd (c₁ ++ c₂) s = flushCache ops dd c₂ s₁ := by
  induction c₁ generalizing s with
  | nil =>
    simp only [flushCache, Prod.mk.injEq] at h
    rw [List.nil_append, h.2]
  | cons p rest ih =>
    obtain ⟨k₀, ent⟩ := p
    rw [List.cons_append, flushCache_cons] at *
    cases hap : applyEntry ops dd s k₀ ent with
    | ok s' =>
      rw [hap] at h
      exact ih s' h
    | error e =>
      rw [hap] at h
      have hne : some e = (none : Option Err) := congrArg Prod.fst h
      simp at hne

/-- The commit loop over a plain-dict store: it never errors, and the
final store holds, at each key, the last pending value for that key
(tombstones delete exactly when `do_deletes` is set), keys without a
pending entry being untouched. -/
theorem flushCache_plain (dd : Bool) (c : List (Key × Option Val)) (s : PlainStore)
    (hc : (c.map Prod.fst).Nodup) (hs : (s.map Prod.fst).Nodup) (k : Key) :
    (flushCache plainOps dd c s).1 = none ∧
    dictLookup (flushCache plainOps dd c s).2 k =
      (match dictLookup c k with
       | some (some v) => some v
       | some none => if dd then none else dictLookup s k
       | none => dictLookup s k) := by
  induction c generalizing s with
  | nil => simp [flushCache, dictLookup]
  | cons p rest ih =>
    obtain ⟨k₀, ent⟩ := p
    simp only [List.map_cons, List.nodup_cons] at hc
    cases ent with
    | some v =>
      rw [flushCache_cons_ok plainOps dd k₀ (some v) rest s (dictInsert s k₀ v) rfl]
      have hrec := ih (dictInsert s k₀ v) hc.2 (dictInsert_keys_nodup s k₀ v hs)
      refine ⟨hrec.1, ?_⟩
      rw [hrec.2]
      by_cases hk : k₀ = k
      · subst hk
        rw [dictLookup_eq_none_of_not_mem rest k₀ hc.1]
        simp [dictLookup, dictLookup_dictInsert_self]
      · rw [dictLookup_dictInsert_ne s k₀ k v (Ne.symm hk)]
        simp [dictLookup, hk]
    | none =>
      cases dd with
      | true =>
        rw [flushCache_cons_ok plainOps true k₀ none rest s (dictPop s k₀) rfl]
        have hrec := ih (dictPop s k₀) hc.2 (dictPop_keys_nodup s k₀ hs)
        refine ⟨hrec.1, ?_⟩
        rw [hrec.2]
        by_cases hk : k₀ = k
        · subst hk
          rw [dictLookup_eq_none_of_not_mem rest k₀ hc.1]
          simp [dictLookup, dictLookup_dictPop_self s k₀ hs]
        · rw [dictLookup_dictPop_ne s k₀ k (Ne.symm hk)]
          simp [dictLookup, hk]
      | false =>
        rw [flushCache_cons_ok plainOps false k₀ none rest s s rfl]
        have hrec := ih s hc.2 hs
        refine ⟨hrec.1, ?_⟩
        rw [hrec.2]
        by_cases hk : k₀ = k
        · subst hk
          rw [dictLookup_eq_none_of_not_mem rest k₀ hc.1]
          simp [dictLookup]
        · simp [dictLookup, hk]


/-- Well-formedness of a plain backing store: as a Python dict, its keys
are pairwise distinct. -/
def storeWF (s : PlainStore) : Prop := (s.map Prod.fst).Nodup

instance (s : PlainStore) : Decidable (storeWF s) := by
  unfold storeWF; infer_instance

/-- An environment model of a backing store whose `set`/`delete` raise on
the keys selected by `bad` (used to exercise mid-flush store failures). -/
def failOps (bad : Key → Bool) : StoreOps PlainStore where
  sget := dictLookup
  scontains := fun s k => (dictLookup s k).isSome
  sset := fun s k v => if bad k then .error k else .ok (dictInsert s k v)
  spop := fun s k => if bad k then .error k else .ok (dictPop s k)

theorem setItem_cacheWF {σ : Type} (db : ScratchDB σ) (k : Key) (v : Option Val)
    (h : cacheWF db) : cacheWF (setItem db k v) :=
  dictInsert_keys_nodup db.cache k v h

theorem delItem_cacheWF {σ : Type} (db : ScratchDB σ) (k : Key)
    (h : cacheWF db) : cacheWF (delItem db k) :=
  dictInsert_keys_nodup db.cache k none h

/-! ### Claims -/

/-- C1 counterexample: `set(0, None)` on a fresh cache is not rejected —
the call goes through and the pending-change map is modified (it gains the
entry `(0, None)`), contradicting the claim that the call is rejected with
the pending-change map left unmodified. -/
theorem set_none_rejected_counterexample :
    (setItem (⟨[], []⟩ : ScratchDB PlainStore) 0 none).cache ≠
      (⟨[], []⟩ : ScratchDB PlainStore).cache ∧
    (setItem (⟨[], []⟩ : ScratchDB PlainStore) 0 none).cache = [(0, none)] := by
  exact ⟨by decide, rfl⟩

/-- C1 (amended): `set(k, None)` is not rejected: `__setitem__` performs
no check on the value, records the sentinel `None` for `k` in the
pending-change map (a tombstone entry), and never touches the backing
store. -/
theorem set_none_records_tombstone {σ : Type} (db : ScratchDB σ) (k : Key) :
    dictLookup (setItem db k none).cache k = some none ∧
    (setItem db k none).wrapped_db = db.wrapped_db :=
  ⟨dictLookup_dictInsert_self db.cache k none, rfl⟩

/-- C2: when the scope body completes normally, the commit walk applies
every pending entry to the (plain-dict) backing store: a `Value v` entry
sets `k ↦ v`, a tombstone deletes `k` exactly when `do_deletes` is true,
and with `do_deletes = false` a tombstoned key's backing-store value is
left untouched. -/
theorem commit_success_applies_entries (dd : Bool) (db : ScratchDB PlainStore)
    (hc : cacheWF db) (hs : storeWF db.wrapped_db) (k : Key) :
    (batchCommit plainOps dd none db).1 = none ∧
    (∀ v, dictLookup db.cache k = some (some v) →
      dictLookup (batchCommit plainOps dd none db).2.wrapped_db k = some v) ∧
    (dictLookup db.cache k = some none → dd = true →
      dictLookup (batchCommit plainOps dd none db).2.wrapped_db k = none) ∧
    (dictLookup db.cache k = some none → dd = false →
      dictLookup (batchCommit plainOps dd none db).2.wrapped_db k =
        dictLookup db.wrapped_db k) := by
  have h := flushCache_plain dd db.cache db.wrapped_db hc hs k
  refine ⟨h.1, ?_, ?_, ?_⟩
  · intro v hv
    have h2 := h.2
    rw [hv] at h2
    exact h2
  · intro hv hdd
    subst hdd
    have h2 := h.2
    rw [hv] at h2
    simpa using h2
  · intro hv hdd
    subst hdd
    have h2 := h.2
    rw [hv] at h2
    simpa using h2

/-- C2 witness: backing store `{1: 10}`, pending `{0: 5, 1: Tombstone}`;
with `do_deletes = true` the commit sets key 0 and deletes key 1, with
`do_deletes = false` key 1 keeps its stored value 10. -/
theorem commit_success_applies_entries_witness :
    cacheWF (⟨[(1, 10)], [(0, some 5), (1, none)]⟩ : ScratchDB PlainStore) ∧
    dictLookup (batchCommit plainOps true none
      (⟨[(1, 10)], [(0, some 5), (1, none)]⟩ : ScratchDB PlainStore)).2.wrapped_db 0 =
      some 5 ∧
    dictLookup (batchCommit plainOps true none
      (⟨[(1, 10)], [(0, some 5), (1, none)]⟩ : ScratchDB PlainStore)).2.wrapped_db 1 =
      none ∧
    dictLookup (batchCommit plainOps false none
      (⟨[(1, 10)], [(0, some 5), (1, none)]⟩ : ScratchDB PlainStore)).2.wrapped_db 1 =
      some 10 :=
  ⟨by decide,
   (commit_success_applies_entries true ⟨[(1, 10)], [(0, some 5), (1, none)]⟩
     (by decide) (by decide) 0).2.1 5 rfl,
   (commit_success_applies_entries true ⟨[(1, 10)], [(0, some 5), (1, none)]⟩
     (by decide) (by decide) 1).2.2.1 rfl rfl,
   ((commit_success_applies_entries false ⟨[(1, 10)], [(0, some 5), (1, none)]⟩
     (by decide) (by decide) 1).2.2.2 rfl rfl).trans rfl⟩

/-- C3: if the scope body (an arbitrary sequence of overlay `set`/`delete`
calls) raises `e`, the commit scope applies nothing to the backing store —
the store is exactly what it was at scope entry, for every key — and
propagates the very same error `e` to the caller, with the overlay
cleared. -/
theorem commit_body_error_aborts {σ : Type} (ops : StoreOps σ) (dd : Bool)
    (db : ScratchDB σ) (body : List CacheOp) (e : Err) :
    batchCommit ops dd (some e) (runOps body db) =
      (some e, { wrapped_db := db.wrapped_db, cache := [] }) := by
  unfold batchCommit
  rw [runOps_wrapped_db]

/-- C4: on every exit path — body completed (`berr = none`) or body raised
(`berr = some e`) — the pending-change map is reset to empty, and `get`
afterwards delegates to the backing store for every key. -/
theorem commit_always_clears_cache {σ : Type} (ops : StoreOps σ) (dd : Bool)
    (berr : Option Err) (db : ScratchDB σ) :
    (batchCommit ops dd berr db).2.cache = [] ∧
    ∀ k, getItem ops (batchCommit ops dd berr db).2 k =
      ops.sget (batchCommit ops dd berr db).2.wrapped_db k := by
  cases berr <;> exact ⟨rfl, fun k => rfl⟩

/-- C5: `get(k)` returns the pending entry decoded when one exists (the
stored `Option Val` itself: `none` for a tombstone, `some v` for a value)
and otherwise the backing store's lookup result, which already defaults to
absent; `getItem` is a pure function, so it has no side effect on either
the overlay or the store. -/
theorem getItem_spec {σ : Type} (ops : StoreOps σ) (db : ScratchDB σ) (k : Key) :
    (∀ ent, dictLookup db.cache k = some ent → getItem ops db k = ent) ∧
    (dictLookup db.cache k = none → getItem ops db k = ops.sget db.wrapped_db k) := by
  constructor
  · intro ent hent
    unfold getItem
    rw [hent]
  · intro hnone
    unfold getItem
    rw [hnone]

/-- C5 witness: pending `{0: 5, 2: Tombstone}` over store `{1: 7}`:
`get 0 = 5` (pending value), `get 2 = absent` (tombstone), `get 1 = 7`
(delegated to the store). -/
theorem getItem_spec_witness :
    getItem plainOps (⟨[(1, 7)], [(0, some 5), (2, none)]⟩ : ScratchDB PlainStore) 0 =
      some 5 ∧
    getItem plainOps (⟨[(1, 7)], [(0, some 5), (2, none)]⟩ : ScratchDB PlainStore) 2 =
      none ∧
    getItem plainOps (⟨[(1, 7)], [(0, some 5), (2, none)]⟩ : ScratchDB PlainStore) 1 =
      some 7 :=
  ⟨(getItem_spec plainOps ⟨[(1, 7)], [(0, some 5), (2, none)]⟩ 0).1 (some 5) rfl,
   (getItem_spec plainOps ⟨[(1, 7)], [(0, some 5), (2, none)]⟩ 2).1 none rfl,
   ((getItem_spec plainOps ⟨[(1, 7)], [(0, some 5), (2, none)]⟩ 1).2 rfl).trans rfl⟩

/-- C6: `contains(k)` answers `entry is not None` when a pending entry
exists (so a tombstone yields `false` even when the store holds `k`) and
otherwise delegates to the store's existence check; and right after
`delete(k)`, `get(k)` is absent and `contains(k)` is `false`, whatever the
backing store holds at `k`. -/
theorem containsItem_spec {σ : Type} (ops : StoreOps σ) (db : ScratchDB σ) (k : Key) :
    (∀ ent, dictLookup db.cache k = some ent → containsItem ops db k = ent.isSome) ∧
    (dictLookup db.cache k = none →
      containsItem ops db k = ops.scontains db.wrapped_db k) ∧
    getItem ops (delItem db k) k = none ∧
    containsItem ops (delItem db k) k = false := by
  have hdel : dictLookup (delItem db k).cache k = some none :=
    dictLookup_dictInsert_self db.cache k none
  refine ⟨?_, ?_, ?_, ?_⟩
  · intro ent hent
    unfold containsItem
    rw [hent]
  · intro hnone
    unfold containsItem
    rw [hnone]
  · unfold getItem
    rw [hdel]
  · unfold containsItem
    rw [hdel]
    rfl

/-- C6 witness: over store `{0: 9, 1: 7}` with pending
`{0: Tombstone, 2: 3}`: a tombstone shadows the store (`contains 0 =
false`), a pending value answers true (`contains 2 = true`), an untouched
key delegates (`contains 1 = true`); and after `delete 1`, `get 1` is
absent and `contains 1` is false although the store holds 1. -/
theorem containsItem_spec_witness :
    containsItem plainOps
      (⟨[(0, 9), (1, 7)], [(0, none), (2, some 3)]⟩ : ScratchDB PlainStore) 0 = false ∧
    containsItem plainOps
      (⟨[(0, 9), (1, 7)], [(0, none), (2, some 3)]⟩ : ScratchDB PlainStore) 2 = true ∧
    containsItem plainOps
      (⟨[(0, 9), (1, 7)], [(0, none), (2, some 3)]⟩ : ScratchDB PlainStore) 1 = true ∧
    getItem plainOps
      (delItem (⟨[(0, 9), (1, 7)], [(0, none), (2, some 3)]⟩ : ScratchDB PlainStore) 1)
      1 = none ∧
    containsItem plainOps
      (delItem (⟨[(0, 9), (1, 7)], [(0, none), (2, some 3)]⟩ : ScratchDB PlainStore) 1)
      1 = false :=
  ⟨(containsItem_spec plainOps ⟨[(0, 9), (1, 7)], [(0, none), (2, some 3)]⟩ 0).1
      none rfl,
   (containsItem_spec plainOps ⟨[(0, 9), (1, 7)], [(0, none), (2, some 3)]⟩ 2).1
      (some 3) rfl,
   ((containsItem_spec plainOps ⟨[(0, 9), (1, 7)], [(0, none), (2, some 3)]⟩ 1).2.1
      rfl).trans rfl,
   (containsItem_spec plainOps ⟨[(0, 9), (1, 7)], [(0, none), (2, some 3)]⟩ 1).2.2.1,
   (containsItem_spec plainOps ⟨[(0, 9), (1, 7)], [(0, none), (2, some 3)]⟩ 1).2.2.2⟩

/-- C7: right after `set(k, v)` with a non-sentinel value (`some v`), and
before any commit, `get(k) = v` and `contains(k) = true`; the `set` call
is purely local — the backing store component of the state is unchanged,
so every key of the backing store is unchanged. -/
theorem setItem_local_effect {σ : Type} (ops : StoreOps σ) (db : ScratchDB σ)
    (k : Key) (v : Val) :
    getItem ops (setItem db k (some v)) k = some v ∧
    containsItem ops (setItem db k (some v)) k = true ∧
    (setItem db k (some v)).wrapped_db = db.wrapped_db := by
  have h : dictLookup (setItem db k (some v)).cache k = some (some v) :=
    dictLookup_dictInsert_self db.cache k (some v)
  refine ⟨?_, ?_, rfl⟩
  · unfold getItem
    rw [h]
  · unfold containsItem
    rw [h]
    rfl

/-- C8: if a store `set`/`delete` raises partway through the commit walk —
the pending map splits as `fore ++ (k, ent) :: aft` where flushing `fore`
succeeded reaching store state `s₁` and applying `(k, ent)` raises `e` —
then the error is not caught: `batch_commit` propagates `e` to the caller,
the final store is exactly `s₁` (every entry of `fore` applied, `(k, ent)`
and every entry of `aft` never applied), and the pending map is still
cleared by the `finally` block. -/
theorem commit_store_failure {σ : Type} (ops : StoreOps σ) (dd : Bool)
    (db : ScratchDB σ) (fore aft : List (Key × Option Val)) (k : Key)
    (ent : Option Val) (e : Err) (s₁ : σ)
    (hsplit : db.cache = fore ++ (k, ent) :: aft)
    (hfore : flushCache ops dd fore db.wrapped_db = (none, s₁))
    (hfail : applyEntry ops dd s₁ k ent = .error e) :
    batchCommit ops dd none db = (some e, { wrapped_db := s₁, cache := [] }) := by
  unfold batchCommit
  rw [hsplit, flushCache_append ops dd fore ((k, ent) :: aft) db.wrapped_db s₁ hfore,
    flushCache_cons_error ops dd k ent aft s₁ e hfail]

/-- C8 witness: store ops failing on key 1, pending entries
`{0: 5, 1: 6, 2: 7}`: the commit applies `0 ↦ 5`, raises on key 1,
propagates the error, never applies `2 ↦ 7`, and clears the overlay. -/
theorem commit_store_failure_witness :
    batchCommit (failOps (fun k => k == 1)) true none
      (⟨[], [(0, some 5), (1, some 6), (2, some 7)]⟩ : ScratchDB PlainStore) =
      (some 1, { wrapped_db := [(0, 5)], cache := [] }) :=
  commit_store_failure (failOps (fun k => k == 1)) true
    ⟨[], [(0, some 5), (1, some 6), (2, some 7)]⟩
    [(0, some 5)] [(2, some 7)] 1 (some 6) 1 [(0, 5)] rfl rfl rfl

/-- C9: `set(k, None)` produces exactly the same `ScratchDB` state as
`delete(k)` — both execute `self.cache[key] = None` — so the resulting
entry is indistinguishable from a tombstone to `get`, `contains` and the
commit walk. -/
theorem set_none_eq_delete {σ : Type} (db : ScratchDB σ) (k : Key) :
    setItem db k none = delItem db k := rfl

/-- C10: over a plain (non-failing) dict store, a commit scope with
`do_deletes = true` whose body completed normally preserves every key's
observable value: `get(k)` after the flush-and-clear equals `get(k)` just
before the scope exit. -/
theorem commit_preserves_view (db : ScratchDB PlainStore)
    (hc : cacheWF db) (hs : storeWF db.wrapped_db) (k : Key) :
    getItem plainOps (batchCommit plainOps true none db).2 k =
      getItem plainOps db k := by
  have h := flushCache_plain true db.cache db.wrapped_db hc hs k
  have hpost : getItem plainOps (batchCommit plainOps true none db).2 k =
      dictLookup (flushCache plainOps true db.cache db.wrapped_db).2 k := rfl
  rw [hpost, h.2]
  unfold getItem
  cases hl : dictLookup db.cache k with
  | none => rfl
  | some ent =>
    cases ent with
    | some v => rfl
    | none => rfl

/-- C10 witness: store `{1: 10, 2: 20}`, pending `{0: 5, 1: Tombstone}`:
the views before and after the `do_deletes = true` commit agree on the
set key 0, the deleted key 1, and the untouched key 2. -/
theorem commit_preserves_view_witness :
    (getItem plainOps (batchCommit plainOps true none
        (⟨[(1, 10), (2, 20)], [(0, some 5), (1, none)]⟩ : ScratchDB PlainStore)).2 0 =
      getItem plainOps
        (⟨[(1, 10), (2, 20)], [(0, some 5), (1, none)]⟩ : ScratchDB PlainStore) 0) ∧
    (getItem plainOps (batchCommit plainOps true none
        (⟨[(1, 10), (2, 20)], [(0, some 5), (1, none)]⟩ : ScratchDB PlainStore)).2 1 =
      getItem plainOps
        (⟨[(1, 10), (2, 20)], [(0, some 5), (1, none)]⟩ : ScratchDB PlainStore) 1) ∧
    (getItem plainOps (batchCommit plainOps true none
        (⟨[(1, 10), (2, 20)], [(0, some 5), (1, none)]⟩ : ScratchDB PlainStore)).2 2 =
      getItem plainOps
        (⟨[(1, 10), (2, 20)], [(0, some 5), (1, none)]⟩ : ScratchDB PlainStore) 2) :=
  ⟨commit_preserves_view ⟨[(1, 10), (2, 20)], [(0, some 5), (1, none)]⟩
      (by decide) (by decide) 0,
   commit_preserves_view ⟨[(1, 10), (2, 20)], [(0, some 5), (1, none)]⟩
      (by decide) (by decide) 1,
   commit_preserves_view ⟨[(1, 10), (2, 20)], [(0, some 5), (1, none)]⟩
      (by decide) (by decide) 2⟩
